import Mathlib

/-!
Verification of the TarkovTracker progress core.

Shallow embedding of:
- the REST progress handlers from `functions/api/progressHandlers`
  (shown in `src/functions/test/setup.js` after the document separator):
  `getTeamProgress`, `setPlayerLevel`, `updateSingleTask`,
  `updateMultipleTasks`, `updateTaskObjective`;
- the hideout graph composable (`useHideoutData`): `buildHideoutGraph`,
  `createHideoutModules`, `getModuleById`, `getTotalConstructionTime`;
- the Pinia store migration action `migrateDataIfNeeded`.

Firestore is modelled as an in-memory progress document; dotted-field-path
updates (`taskCompletions.<id>.complete` and friends) become keyed updates
of association lists, which preserves the merge semantics (siblings of the
targeted nested key are untouched).  Machine time (`Date.now()`) is an
explicit `now : Nat` parameter.  Helpers that live in repository files that
are not part of the source snapshot (`progressUtils.js`, `graphHelpers`,
`shared_state`) are modelled from the specification and marked as such in
their doc comments.
-/

namespace TarkovTrackerProof

/-- JavaScript truthiness of an optional string (absent and empty are falsy). -/
def jsTruthyOptStr : Option String → Bool
  | none => false
  | some s => s != ""

/-- JavaScript truthiness of an optional number (absent and zero are falsy). -/
def jsTruthyOptNat : Option Nat → Bool
  | none => false
  | some n => n != 0

/-- Error taxonomy of the handlers (spec section 7); each constructor stands
for the corresponding 4xx/5xx response body emitted by the source. -/
inductive ApiError where
  | invalidState
  | invalidCount
  | emptyUpdate
  | missingTaskId
  | missingObjectiveId
  | invalidBody
  | unauthorized
  | serverError
  deriving DecidableEq, Repr

/-- A handler response: an HTTP status plus, for failures, the error kind. -/
inductive ApiResp where
  | ok (status : Nat)
  | err (status : Nat) (e : ApiError)
  deriving DecidableEq, Repr

/-- Stored per-task record in the legacy progress document format
(`TaskCompletionData` in the source).  `none` means the field is absent from
the stored document.  The `invalid` field holds the derived invalidation flag
written by dependency propagation (spec sections 3 and 4.4). -/
structure TaskCompletionData where
  complete : Option Bool := none
  failed : Option Bool := none
  timestamp : Option Nat := none
  invalid : Option Bool := none
  deriving DecidableEq, Repr

/-- Stored per-objective record (`TaskObjectiveData` in the source). -/
structure TaskObjectiveData where
  complete : Option Bool := none
  count : Option Int := none
  timestamp : Option Nat := none
  deriving DecidableEq, Repr

/-- The legacy progress document (`ProgressDocData` in the source), with the
nested maps as association lists keyed by task/objective id. -/
structure ProgressDoc where
  level : Option Int := none
  displayName : Option String := none
  gameEdition : Option Nat := none
  pmcFaction : Option String := none
  taskCompletions : List (String × TaskCompletionData) := []
  taskObjectives : List (String × TaskObjectiveData) := []
  deriving DecidableEq, Repr

/-- Update the value stored at key `k`, inserting `f dflt` if the key is
absent.  This is the association-list rendering of a Firestore dotted-path
update targeting the nested map entry for `k`. -/
def updA {α : Type} (l : List (String × α)) (k : String) (f : α → α) (dflt : α) :
    List (String × α) :=
  match l with
  | [] => [(k, f dflt)]
  | (k2, v) :: rest =>
      if k2 = k then (k2, f v) :: rest else (k2, v) :: updA rest k f dflt

/-- Read a task completion record; absent records read as the all-absent record. -/
def getTaskCompletion (doc : ProgressDoc) (taskId : String) : TaskCompletionData :=
  (List.lookup taskId doc.taskCompletions).getD {}

/-- Apply `f` to the task completion record stored for `taskId`
(the rendering of the dotted-path writes `taskCompletions.<id>.*`). -/
def setTaskCompletion (doc : ProgressDoc) (taskId : String)
    (f : TaskCompletionData → TaskCompletionData) : ProgressDoc :=
  { doc with taskCompletions := updA doc.taskCompletions taskId f {} }

/-- Read a task objective record. -/
def getTaskObjective (doc : ProgressDoc) (objectiveId : String) : TaskObjectiveData :=
  (List.lookup objectiveId doc.taskObjectives).getD {}

/-- Apply `f` to the objective record stored for `objectiveId`. -/
def setTaskObjective (doc : ProgressDoc) (objectiveId : String)
    (f : TaskObjectiveData → TaskObjectiveData) : ProgressDoc :=
  { doc with taskObjectives := updA doc.taskObjectives objectiveId f {} }

/-- The source's `isValidTaskStatus`: the three recognized task states. -/
def isValidTaskStatus (status : String) : Bool :=
  status = "uncompleted" || status = "completed" || status = "failed"

/-!
### Transitive closure over a neighbour function

Modelled from the spec: `getPredecessors`/`getSuccessors` live in
`composables/utils/graphHelpers`, which is not part of the source snapshot.
Spec section 4.2 describes them as the full transitive closure computed by a
standard traversal with a visited-set guard, returning each reachable node
exactly once and the empty set for an unknown id.  We realise this as a
bounded saturation of the direct-neighbour step, and prove below that (for
the fuel used) membership coincides with `Relation.TransGen` reachability.
-/
/-- One saturation step: keep the frontier and add every direct neighbour,
removing duplicates (the visited-set guard of the traversal). -/
def closureStep (nbrs : String → List String) (s : List String) : List String :=
  (s ++ s.flatMap nbrs).dedup

/-- Bounded saturation of `closureStep`. -/
def closureFrom (nbrs : String → List String) (fuel : Nat) (start : List String) :
    List String :=
  (closureStep nbrs)^[fuel] start

/-- Direct predecessors of `x` in an edge list (an edge `(a, b)` means
`a` is a prerequisite of `b`). -/
def nbrsPred (edges : List (String × String)) (x : String) : List String :=
  (edges.filter (fun e => e.2 = x)).map (fun e => e.1)

/-- Direct successors of `x` in an edge list. -/
def nbrsSucc (edges : List (String × String)) (x : String) : List String :=
  (edges.filter (fun e => e.1 = x)).map (fun e => e.2)

/-- Modelled from the spec: `getPredecessors` lives in
`composables/utils/graphHelpers`, which is not part of the source snapshot.
Per spec section 4.2 it returns the transitive ancestors of `root` (each
reachable prerequisite exactly once; empty for an unknown id), computed by a
visited-set traversal; here as the bounded saturation `closureFrom`. -/
def getPredecessors (edges : List (String × String)) (root : String) : List String :=
  closureFrom (nbrsPred edges) (edges.length + 1) ((nbrsPred edges root).dedup)

/-- Modelled from the spec: `getSuccessors` (graphHelpers, not in the source
snapshot) returns the transitive descendants of `root`; see `getPredecessors`. -/
def getSuccessors (edges : List (String × String)) (root : String) : List String :=
  closureFrom (nbrsSucc edges) (edges.length + 1) ((nbrsSucc edges root).dedup)

/-!
### Task dependency propagation (spec-modelled)
-/
/-- Modelled from the spec: how the propagation engine reads a stored task
status (spec section 4.4: statuses are `uncompleted`, `completed`, `failed`,
and propagation recomputes from the current stored statuses). -/
def storedTaskStatus (doc : ProgressDoc) (taskId : String) : String :=
  let c := getTaskCompletion doc taskId
  if c.failed = some true then "failed"
  else if c.complete = some true then "completed"
  else "uncompleted"

/-- Modelled from the spec: `updateTaskState` lives in `progressUtils.js`,
which is not part of the source snapshot.  Spec section 4.4: after a status
change of task `taskId` to `state`, for every transitive descendant recompute
its derived `invalid` flag — `true` if any direct predecessor is failed,
`false` if all direct predecessors are completed, unchanged otherwise.  The
task catalog (`taskData`) is abstracted as its prerequisite edge list. -/
def updateTaskState (edges : List (String × String)) (taskId state : String)
    (doc : ProgressDoc) : ProgressDoc :=
  (getSuccessors edges taskId).foldl
    (fun d dId =>
      let preds := nbrsPred edges dId
      let statusOf := fun p => if p = taskId then state else storedTaskStatus d p
      if preds.any (fun p => statusOf p = "failed") then
        setTaskCompletion d dId (fun c => { c with invalid := some true })
      else if preds.all (fun p => statusOf p = "completed") then
        setTaskCompletion d dId (fun c => { c with invalid := some false })
      else d)
    doc

/-!
### Single and batch task update handlers

These model `updateSingleTask` and `updateMultipleTasks` from the progress
handlers.  The authorization gate (`req.apiToken.owner` truthy and the `WP`
permission) is kept; `req.params`/`req.body` become explicit arguments.
`catalogOk` abstracts whether `getTaskData()` (and with it the propagation
step) succeeds or throws: the source wraps the propagation in try/catch, so a
throw leaves the primary write in place and is logged only.
-/
/-- The legacy-format field writes of `updateSingleTask` for one task
(the three `state` branches building `updateData`). -/
def applySingleTaskWrite (taskId state : String) (now : Nat) (doc : ProgressDoc) :
    ProgressDoc :=
  if state = "completed" then
    setTaskCompletion doc taskId
      (fun c => { c with complete := some true, failed := some false, timestamp := some now })
  else if state = "failed" then
    setTaskCompletion doc taskId
      (fun c => { c with complete := some true, failed := some true, timestamp := some now })
  else if state = "uncompleted" then
    setTaskCompletion doc taskId
      (fun c => { c with complete := some false, failed := some false, timestamp := none })
  else doc

/-- Handler `updateSingleTask`: validate, apply the primary write, then best-effort
dependency propagation (its failure is caught and does not affect the
response). -/
def updateSingleTask (edges : List (String × String)) (catalogOk : Bool)
    (ownerId : Option String) (perms : List String)
    (taskId state : String) (now : Nat) (doc : ProgressDoc) :
    ApiResp × ProgressDoc :=
  if jsTruthyOptStr ownerId && perms.contains "WP" then
    if taskId = "" then (.err 400 .missingTaskId, doc)
    else if !isValidTaskStatus state then (.err 400 .invalidState, doc)
    else
      let d1 := applySingleTaskWrite taskId state now doc
      let d2 := if catalogOk then updateTaskState edges taskId state d1 else d1
      (.ok 200, d2)
  else (.err 401 .unauthorized, doc)

/-- The legacy-format field writes of the batch loop in `updateMultipleTasks`
for one task (`batchUpdateData`); the source duplicates the three branches of
the single-task handler. -/
def applyBatchTaskWrite (taskId status : String) (now : Nat) (doc : ProgressDoc) :
    ProgressDoc :=
  if status = "completed" then
    setTaskCompletion doc taskId
      (fun c => { c with complete := some true, failed := some false, timestamp := some now })
  else if status = "failed" then
    setTaskCompletion doc taskId
      (fun c => { c with complete := some true, failed := some true, timestamp := some now })
  else if status = "uncompleted" then
    setTaskCompletion doc taskId
      (fun c => { c with complete := some false, failed := some false, timestamp := none })
  else doc

/-- Dependency propagation kicked off for a list of batch items.  In the
source each item's propagation promise starts as soon as the item is
validated (before the batch commit decision), and each is individually
try/caught, so a `catalogOk = false` run leaves the document untouched. -/
def applyBatchPropagation (edges : List (String × String)) (catalogOk : Bool)
    (items : List (String × String)) (doc : ProgressDoc) : ProgressDoc :=
  items.foldl
    (fun d p => if catalogOk then updateTaskState edges p.1 p.2 d else d) doc

/-- Handler `updateMultipleTasks`: iterate the request map in order, breaking at the
first invalid status.  On rejection the primary batch write is skipped, but
the propagation promises already started for the validated items still run.
On success the accumulated batch write commits, then propagation runs per
item. -/
def updateMultipleTasks (edges : List (String × String)) (catalogOk : Bool)
    (ownerId : Option String) (perms : List String)
    (updates : List (String × String)) (now : Nat) (doc : ProgressDoc) :
    ApiResp × ProgressDoc :=
  if jsTruthyOptStr ownerId && perms.contains "WP" then
    if updates.isEmpty then (.err 400 .invalidBody, doc)
    else if updates.all (fun p => isValidTaskStatus p.2) then
      let d1 := updates.foldl (fun d p => applyBatchTaskWrite p.1 p.2 now d) doc
      (.ok 200, applyBatchPropagation edges catalogOk updates d1)
    else
      let validated := updates.takeWhile (fun p => isValidTaskStatus p.2)
      (.err 400 .invalidState, applyBatchPropagation edges catalogOk validated doc)
  else (.err 401 .unauthorized, doc)

/-!
### Player level handler
-/
/-- JavaScript `parseInt(s, 10)`: skip leading whitespace, read an optional
sign, then the longest leading digit run; `NaN` (here `none`) if there is no
digit.  Trailing garbage is ignored. -/
def parseIntJS (s : String) : Option Int :=
  let cs := s.data.dropWhile (fun c => c.isWhitespace)
  let signed : Int × List Char :=
    match cs with
    | c :: rest =>
        if c = '-' then (-1, rest)
        else if c = '+' then (1, rest)
        else (1, cs)
    | [] => (1, [])
  let digits := signed.2.takeWhile (fun c => c.isDigit)
  if digits.isEmpty then none
  else some (signed.1 * digits.foldl (fun n c => 10 * n + Int.ofNat (c.toNat - 48)) 0)

/-- Handler `setPlayerLevel`: parse the path segment, reject `NaN` or values below 1,
otherwise merge-write only the `level` field of the progress document. -/
def setPlayerLevel (ownerId : Option String) (perms : List String)
    (levelValue : String) (doc : ProgressDoc) : ApiResp × ProgressDoc :=
  if jsTruthyOptStr ownerId && perms.contains "WP" then
    match parseIntJS levelValue with
    | none => (.err 400 .invalidCount, doc)
    | some v =>
        if v < 1 then (.err 400 .invalidCount, doc)
        else (.ok 200, { doc with level := some v })
  else (.err 401 .unauthorized, doc)

/-!
### Task objective handler
-/
/-- The `state` branch of `updateTaskObjective`: which objective-record
fields a truthy `state` value schedules for writing, or `InvalidState` for an
unrecognized value.  An absent/empty `state` schedules nothing. -/
def objectiveStateWrite (state : Option String) (now : Nat) :
    Except ApiError (TaskObjectiveData → TaskObjectiveData) :=
  if jsTruthyOptStr state then
    if state = some "completed" then
      .ok (fun o => { o with complete := some true, timestamp := some now })
    else if state = some "uncompleted" then
      .ok (fun o => { o with complete := some false, timestamp := none })
    else .error .invalidState
  else .ok (fun o => o)

/-- Handler `updateTaskObjective`: requires at least one of `state`/`count`;
validates both before the single write commits.  A `count` that is present
but not a number is outside this model (the argument is typed). -/
def updateTaskObjective (ownerId : Option String) (perms : List String)
    (objectiveId : String) (state : Option String) (count : Option Int)
    (now : Nat) (doc : ProgressDoc) : ApiResp × ProgressDoc :=
  if jsTruthyOptStr ownerId && perms.contains "WP" then
    if objectiveId = "" then (.err 400 .missingObjectiveId, doc)
    else if !jsTruthyOptStr state && count.isNone then (.err 400 .emptyUpdate, doc)
    else
      match objectiveStateWrite state now with
      | .error e => (.err 400 e, doc)
      | .ok f =>
          match count with
          | none => (.ok 200, setTaskObjective doc objectiveId f)
          | some c =>
              if c < 0 then (.err 400 .invalidCount, doc)
              else (.ok 200, setTaskObjective doc objectiveId
                      (fun o => { f o with count := some c }))
  else (.err 401 .unauthorized, doc)

/-!
### Team progress handler
-/
/-- The requester's `system/<uid>` document (team membership pointer). -/
structure SystemDoc where
  team : Option String := none
  deriving DecidableEq, Repr

/-- The requester's `user/<uid>` document (per-teammate hide flags). -/
structure UserDoc where
  teamHide : List (String × Bool) := []
  deriving DecidableEq, Repr

/-- A `team/<id>` document. -/
structure TeamDoc where
  members : List String := []
  deriving DecidableEq, Repr

/-- One flattened progress item of the public response shape. -/
structure TaskItem where
  id : String
  complete : Bool
  failed : Bool
  invalid : Bool
  deriving DecidableEq, Repr

/-- The public progress shape returned per member. -/
structure FormattedProgress where
  userId : String
  playerLevel : Int
  tasksProgress : List TaskItem
  deriving DecidableEq, Repr

/-- Modelled from the spec: `formatProgress` lives in `progressUtils.js`,
which is not part of the source snapshot.  Spec section 4.5: flatten the
stored nested maps into item arrays with id/complete/failed/invalid fields
and carry over the actor-level scalars; the exact field set is immaterial to
the claims, which only need that the formatting is a deterministic function
of the stored record and the member id. -/
def formatProgress (doc : ProgressDoc) (userId : String) : FormattedProgress :=
  { userId := userId
    playerLevel := doc.level.getD 1
    tasksProgress := doc.taskCompletions.map
      (fun p => { id := p.1
                  complete := p.2.complete.getD false
                  failed := p.2.failed.getD false
                  invalid := p.2.invalid.getD false }) }

/-- First-occurrence deduplication, matching `[...new Set(xs)]`. -/
def dedupKeepFirst (l : List String) : List String :=
  l.foldl (fun acc x => if x ∈ acc then acc else acc ++ [x]) []

/-- The fetched member-id list: the team's members plus the requester,
deduplicated, or just the requester without a (resolvable) team. -/
def teamMemberIds (ownerId : String) (systemDoc : Option SystemDoc)
    (teams : List (String × TeamDoc)) : List String :=
  match systemDoc.bind SystemDoc.team with
  | some teamId =>
      match List.lookup teamId teams with
      | some td => dedupKeepFirst (td.members ++ [ownerId])
      | none => [ownerId]
  | none => [ownerId]

/-- The `getTeamProgress` response: formatted progress per member plus
visibility metadata. -/
structure TeamProgressResult where
  status : Nat
  error : Option ApiError
  data : List FormattedProgress
  hiddenTeammates : List String
  deriving DecidableEq, Repr

/-- Handler `getTeamProgress`: resolve the member list, format the progress of every
member that has a stored record (members without one are skipped with a
warning), and compute `hiddenTeammates` from the requester's own hide map
over the member list, excluding the requester. -/
def getTeamProgress (ownerId : Option String) (perms : List String)
    (systemDoc : Option SystemDoc) (userDoc : Option UserDoc)
    (teams : List (String × TeamDoc)) (progressStore : List (String × ProgressDoc))
    (catalogOk : Bool) : TeamProgressResult :=
  match ownerId with
  | none => ⟨401, some .unauthorized, [], []⟩
  | some uid =>
      if uid = "" || !perms.contains "TP" then ⟨401, some .unauthorized, [], []⟩
      else if !catalogOk then ⟨500, some .serverError, [], []⟩
      else
        let hiddenMap := (userDoc.map UserDoc.teamHide).getD []
        let memberIds := teamMemberIds uid systemDoc teams
        let data := memberIds.filterMap
          (fun m => (List.lookup m progressStore).map (fun d => formatProgress d m))
        let hidden := memberIds.filter
          (fun i => i != uid && (List.lookup i hiddenMap).getD false)
        ⟨200, none, data, hidden⟩

/-!
### Schema migration (`migrateDataIfNeeded` from the Tarkov store)
-/
/-- One game mode's progress bucket; only the fields the migration check
reads are carried. -/
structure ModeState where
  level : Option Nat := none
  deriving DecidableEq, Repr

/-- The store state seen by `migrateDataIfNeeded`: the mode selector, the
two mode buckets, and the legacy top-level `level` scalar. -/
structure TarkovState where
  currentGameMode : Option String := none
  pvp : Option ModeState := none
  pve : Option ModeState := none
  level : Option Nat := none
  deriving DecidableEq, Repr

/-- The `needsMigration` condition of `migrateDataIfNeeded`, with JavaScript
truthiness made explicit: `!this.currentGameMode || !this.pvp || !this.pve ||
((this as ...).level !== undefined && !this.pvp?.level)`. -/
def needsMigration (s : TarkovState) : Bool :=
  !jsTruthyOptStr s.currentGameMode || s.pvp.isNone || s.pve.isNone ||
    (s.level.isSome && !jsTruthyOptNat (s.pvp.bind ModeState.level))

/-- Modelled from the spec: `migrateToGameModeStructure` lives in
`shared_state`, which is not part of the source snapshot.  Spec sections 3,
4.6 and 8: legacy fields move into the `pvp` bucket, `pve` is initialised to
the default empty state, and `currentGameMode` becomes the mode the legacy
data represented (`pvp`). -/
def migrateToGameModeStructure (s : TarkovState) : TarkovState :=
  { currentGameMode := some "pvp"
    pvp := some { level := if s.level.isSome then s.level else s.pvp.bind ModeState.level }
    pve := some (s.pve.getD {})
    level := none }

/-- Result of one `migrateDataIfNeeded` invocation: the resulting state,
whether a `$patch` was applied, and whether a Firestore save was issued. -/
structure MigrationResult where
  state : TarkovState
  patched : Bool
  savedRemote : Bool
  deriving DecidableEq, Repr

/-- Action `migrateDataIfNeeded`: check `needsMigration`; when it holds, migrate,
patch the store and (when logged in) save to Firestore; otherwise do
nothing. -/
def migrateDataIfNeeded (loggedIn : Bool) (s : TarkovState) : MigrationResult :=
  if needsMigration s then
    { state := migrateToGameModeStructure s, patched := true, savedRemote := loggedIn }
  else
    { state := s, patched := false, savedRemote := false }

/-!
### Hideout graph (`useHideoutData`)
-/
/-- A station-level requirement as delivered by the catalog: the referenced
station (nullable in the wire data, hence `Option`, with the empty string
standing for a falsy id) and the required level number. -/
structure StationLevelRequirement where
  stationRefId : Option String := none
  level : Nat := 0
  deriving DecidableEq, Repr

/-- One level of a hideout station. -/
structure HideoutLevel where
  id : String
  level : Nat
  constructionTime : Nat
  stationLevelRequirements : List StationLevelRequirement := []
  deriving DecidableEq, Repr

/-- A hideout station with its ordered levels. -/
structure HideoutStation where
  id : String
  levels : List HideoutLevel
  deriving DecidableEq, Repr

/-- A directed graph as node and edge lists. -/
structure Graph where
  nodes : List String := []
  edges : List (String × String) := []
  deriving DecidableEq, Repr

/-- Modelled from the spec: `safeAddNode` (graphHelpers, not in the source
snapshot); spec section 4.1: adding an existing node is a no-op. -/
def safeAddNode (g : Graph) (id : String) : Graph :=
  if id ∈ g.nodes then g else { g with nodes := g.nodes ++ [id] }

/-- Modelled from the spec: `safeAddEdge` (graphHelpers, not in the source
snapshot); spec section 4.1: adding an existing edge is a no-op. -/
def safeAddEdge (g : Graph) (a b : String) : Graph :=
  if (a, b) ∈ g.edges then g else { g with edges := g.edges ++ [(a, b)] }

/-- Resolution of one declared requirement against the station catalog,
exactly as `buildHideoutGraph` performs it: a truthy referenced-station id,
the referenced station found by id, its level found by declared level number
(not array index), and the found level's id truthy. -/
def resolveRequirement (stations : List HideoutStation) (r : StationLevelRequirement) :
    Option String :=
  match r.stationRefId with
  | none => none
  | some sid =>
      if sid = "" then none
      else
        match stations.find? (fun s => s.id = sid) with
        | none => none
        | some rs =>
            match rs.levels.find? (fun l => l.level = r.level) with
            | none => none
            | some rl => if rl.id = "" then none else some rl.id

/-- Process one declared requirement of the level `levelId`: on successful
resolution add the required level's node and the edge required → dependent;
otherwise log a warning and skip only this edge. -/
def addRequirement (stations : List HideoutStation) (levelId : String)
    (g : Graph) (r : StationLevelRequirement) : Graph :=
  match resolveRequirement stations r with
  | some requiredId => safeAddEdge (safeAddNode g requiredId) requiredId levelId
  | none => g

/-- Process one level: ensure its node exists, then process its declared
requirements. -/
def addLevel (stations : List HideoutStation) (g : Graph) (level : HideoutLevel) :
    Graph :=
  level.stationLevelRequirements.foldl (addRequirement stations level.id)
    (safeAddNode g level.id)

/-- Process one station: its levels in order. -/
def addStation (stations : List HideoutStation) (g : Graph)
    (station : HideoutStation) : Graph :=
  station.levels.foldl (addLevel stations) g

/-- The builder `buildHideoutGraph` from `useHideoutData`: fold every station's levels
and requirements into a fresh graph. -/
def buildHideoutGraph (stations : List HideoutStation) : Graph :=
  stations.foldl (addStation stations) {}

/-- A hideout module: a level enriched with its station id and relationship
data (only the fields the verified operations read are carried). -/
structure HideoutModule where
  id : String
  stationId : String
  constructionTime : Nat
  predecessors : List String
  deriving DecidableEq, Repr

/-- The source's `createHideoutModules`: one module per station level, with the
transitive relationship lists taken from the built graph. -/
def createHideoutModules (stations : List HideoutStation) (g : Graph) :
    List HideoutModule :=
  stations.flatMap (fun station =>
    station.levels.map (fun level =>
      { id := level.id
        stationId := station.id
        constructionTime := level.constructionTime
        predecessors := getPredecessors g.edges level.id }))

/-- The source's `getModuleById`: first module carrying the id. -/
def getModuleById (modules : List HideoutModule) (moduleId : String) :
    Option HideoutModule :=
  modules.find? (fun m => m.id = moduleId)

/-- The source's `getTotalConstructionTime`: the module's own construction time plus the
time of every resolvable prerequisite module; `0` for an unknown id. -/
def getTotalConstructionTime (modules : List HideoutModule) (moduleId : String) :
    Nat :=
  match getModuleById modules moduleId with
  | none => 0
  | some m =>
      m.predecessors.foldl
        (fun total pid =>
          match getModuleById modules pid with
          | some p => total + p.constructionTime
          | none => total)
        m.constructionTime

/-- The primary (non-derived) stored task fields. -/
def primaryFields (c : TaskCompletionData) : Option Bool × Option Bool × Option Nat :=
  (c.complete, c.failed, c.timestamp)

/-- Station levels paired with their stations, in catalog order. -/
def stationLevels (stations : List HideoutStation) :
    List (HideoutStation × HideoutLevel) :=
  stations.flatMap (fun s => s.levels.map (fun l => (s, l)))

/-- The module built for one (station, level) pair. -/
def mkModule (g : Graph) (p : HideoutStation × HideoutLevel) : HideoutModule :=
  { id := p.2.id
    stationId := p.1.id
    constructionTime := p.2.constructionTime
    predecessors := getPredecessors g.edges p.2.id }

/-- The catalog construction time of the (first) level with a given id. -/
def levelTime (stations : List HideoutStation) (a : String) : Nat :=
  (((stationLevels stations).find? (fun p => p.2.id = a)).map
    (fun p => p.2.constructionTime)).getD 0

/-- Demo: the level of station `s2`, requiring `s1` level 2 and also a
nonexistent station `s9` (an unresolvable requirement that must only skip
its edge). -/
def demoS2Level : HideoutLevel :=
  { id := "s2l1", level := 1, constructionTime := 5,
    stationLevelRequirements := [{ stationRefId := some "s1", level := 2 },
                                 { stationRefId := some "s9", level := 3 }] }

/-- Demo station `s2`. -/
def demoS2 : HideoutStation := { id := "s2", levels := [demoS2Level] }

/-- A small catalog exercising the builder: station `s1` with two levels and
station `s2` with one resolvable and one unresolvable requirement. -/
def demoHideoutStations : List HideoutStation :=
  [ { id := "s1",
      levels := [
        { id := "s1l1", level := 1, constructionTime := 10 },
        { id := "s1l2", level := 2, constructionTime := 20,
          stationLevelRequirements := [{ stationRefId := some "s1", level := 1 }] } ] },
    demoS2 ]

/-!
## Theorems
-/

theorem mem_closureStep {nbrs : String → List String} {s : List String} {x : String} :
    x ∈ closureStep nbrs s ↔ x ∈ s ∨ ∃ y ∈ s, x ∈ nbrs y := by
  simp [closureStep, List.mem_dedup, List.mem_append, List.mem_flatMap]

theorem subset_closureStep {nbrs : String → List String} {s : List String} :
    ∀ x ∈ s, x ∈ closureStep nbrs s := by
  intro x hx; exact mem_closureStep.mpr (Or.inl hx)

theorem closureStep_congr {nbrs : String → List String} {s t : List String}
    (h : ∀ z, z ∈ s ↔ z ∈ t) : ∀ z, z ∈ closureStep nbrs s ↔ z ∈ closureStep nbrs t := by
  intro z
  rw [mem_closureStep, mem_closureStep]
  constructor
  · rintro (hz | ⟨y, hy, hzy⟩)
    · exact Or.inl ((h z).mp hz)
    · exact Or.inr ⟨y, (h y).mp hy, hzy⟩
  · rintro (hz | ⟨y, hy, hzy⟩)
    · exact Or.inl ((h z).mpr hz)
    · exact Or.inr ⟨y, (h y).mpr hy, hzy⟩

theorem closureFrom_mono_succ {nbrs : String → List String} {start : List String}
    (n : Nat) : ∀ x ∈ closureFrom nbrs n start, x ∈ closureFrom nbrs (n + 1) start := by
  intro x hx
  rw [closureFrom, Function.iterate_succ_apply']
  exact subset_closureStep x hx

theorem closureFrom_mono {nbrs : String → List String} {start : List String}
    {m n : Nat} (hmn : m ≤ n) :
    ∀ x ∈ closureFrom nbrs m start, x ∈ closureFrom nbrs n start := by
  induction n with
  | zero => intro x hx; simpa [Nat.le_zero.mp hmn] using hx
  | succ n ih =>
      intro x hx
      rcases Nat.lt_or_ge m (n + 1) with h | h
      · exact closureFrom_mono_succ n x (ih (Nat.lt_succ_iff.mp h) x hx)
      · have : m = n + 1 := Nat.le_antisymm hmn h
        simpa [this] using hx

/-- Everything in the closure is either in the start set or reached through
a neighbour step out of something already in the closure: soundness of the
saturation with respect to any step-closed predicate. -/
theorem closureFrom_sound {nbrs : String → List String} {start : List String}
    {P : String → Prop} (hstart : ∀ x ∈ start, P x)
    (hstep : ∀ y, P y → ∀ x ∈ nbrs y, P x) :
    ∀ n, ∀ x ∈ closureFrom nbrs n start, P x := by
  intro n
  induction n with
  | zero => exact hstart
  | succ n ih =>
      intro x hx
      rw [closureFrom, Function.iterate_succ_apply'] at hx
      rcases mem_closureStep.mp hx with hx | ⟨y, hy, hxy⟩
      · exact ih x hx
      · exact hstep y (ih y hy) x hxy

theorem closureFrom_subset_universe {nbrs : String → List String} {start U : List String}
    (hU : ∀ y x, x ∈ nbrs y → x ∈ U) (hstart : ∀ x ∈ start, x ∈ U) :
    ∀ n, ∀ x ∈ closureFrom nbrs n start, x ∈ U :=
  closureFrom_sound hstart (fun y _ x hx => hU y x hx)

theorem nodup_closureFrom {nbrs : String → List String} {start : List String}
    (hstart : start.Nodup) (n : Nat) : (closureFrom nbrs n start).Nodup := by
  cases n with
  | zero => exact hstart
  | succ n =>
      rw [closureFrom, Function.iterate_succ_apply']
      exact List.nodup_dedup _

/-- The saturation stabilises (membership-wise) after at most as many steps
as there are distinct elements in a universe `U` containing every neighbour
and the start set. -/
theorem closureFrom_exists_stable {nbrs : String → List String} {start U : List String}
    (hU : ∀ y x, x ∈ nbrs y → x ∈ U) (hstartU : ∀ x ∈ start, x ∈ U) :
    ∃ k ≤ U.toFinset.card,
      ∀ z, z ∈ closureFrom nbrs (k + 1) start ↔ z ∈ closureFrom nbrs k start := by
  by_contra hcon
  push_neg at hcon
  have hsub : ∀ n, (closureFrom nbrs n start).toFinset ⊆
      (closureFrom nbrs (n + 1) start).toFinset := by
    intro n z hz
    exact List.mem_toFinset.mpr (closureFrom_mono_succ n z (List.mem_toFinset.mp hz))
  have hcard_le : ∀ n, (closureFrom nbrs n start).toFinset.card ≤ U.toFinset.card := by
    intro n
    apply Finset.card_le_card
    intro z hz
    exact List.mem_toFinset.mpr
      (closureFrom_subset_universe hU hstartU n z (List.mem_toFinset.mp hz))
  have hgrow : ∀ k, k ≤ U.toFinset.card + 1 →
      k ≤ (closureFrom nbrs k start).toFinset.card := by
    intro k
    induction k with
    | zero => intro _; exact Nat.zero_le _
    | succ k ih =>
        intro hk
        have hk' : k ≤ U.toFinset.card := by omega
        obtain ⟨z, hz⟩ := hcon k hk'
        have hz1 : z ∈ closureFrom nbrs (k + 1) start ∧ z ∉ closureFrom nbrs k start := by
          rcases hz with h | ⟨h2, h1⟩
          · exact h
          · exact absurd (closureFrom_mono_succ k z h1) h2
        have hss : (closureFrom nbrs k start).toFinset ⊂
            (closureFrom nbrs (k + 1) start).toFinset := by
          rw [Finset.ssubset_iff_of_subset (hsub k)]
          exact ⟨z, List.mem_toFinset.mpr hz1.1, fun hmem => hz1.2 (List.mem_toFinset.mp hmem)⟩
        have hlt := Finset.card_lt_card hss
        have := ih (by omega)
        omega
  have h1 := hgrow (U.toFinset.card + 1) (le_refl _)
  have h2 := hcard_le (U.toFinset.card + 1)
  omega

/-- Once saturated, membership agrees at every later fuel value. -/
theorem closureFrom_agree {nbrs : String → List String} {start : List String} {k : Nat}
    (hstable : ∀ z, z ∈ closureFrom nbrs (k + 1) start ↔ z ∈ closureFrom nbrs k start) :
    ∀ n, k ≤ n → ∀ z, z ∈ closureFrom nbrs n start ↔ z ∈ closureFrom nbrs k start := by
  intro n
  induction n with
  | zero =>
      intro hn z
      have h0 : k = 0 := Nat.le_zero.mp hn
      rw [h0]
  | succ n ih =>
      intro hn z
      rcases Nat.lt_or_ge k (n + 1) with h | h
      · have hkn : k ≤ n := Nat.lt_succ_iff.mp h
        have hcongr := @closureStep_congr nbrs _ _ (ih hkn)
        have e1 : closureFrom nbrs (n + 1) start = closureStep nbrs (closureFrom nbrs n start) := by
          rw [closureFrom, Function.iterate_succ_apply']; rfl
        have e2 : closureFrom nbrs (k + 1) start = closureStep nbrs (closureFrom nbrs k start) := by
          rw [closureFrom, Function.iterate_succ_apply']; rfl
        rw [e1, hcongr z, ← e2]
        exact hstable z
      · have : k = n + 1 := Nat.le_antisymm hn h
        rw [this]

/-- At sufficient fuel the computed closure is closed under the neighbour step. -/
theorem closureFrom_closed {nbrs : String → List String} {start U : List String}
    (hU : ∀ y x, x ∈ nbrs y → x ∈ U) (hstartU : ∀ x ∈ start, x ∈ U)
    {fuel : Nat} (hfuel : U.toFinset.card ≤ fuel) :
    ∀ y ∈ closureFrom nbrs fuel start, ∀ x ∈ nbrs y, x ∈ closureFrom nbrs fuel start := by
  obtain ⟨k, hk, hstable⟩ := closureFrom_exists_stable hU hstartU
  have hagree := closureFrom_agree hstable
  intro y hy x hx
  have hyk : y ∈ closureFrom nbrs k start := (hagree fuel (le_trans hk hfuel) y).mp hy
  have hxk1 : x ∈ closureFrom nbrs (k + 1) start := by
    rw [closureFrom, Function.iterate_succ_apply']
    exact mem_closureStep.mpr (Or.inr ⟨y, hyk, hx⟩)
  exact (hagree fuel (le_trans hk hfuel) x).mpr ((hstable x).mp hxk1)

/-- Characterisation of the bounded saturation started from the direct
neighbours of `root`: membership is exactly transitive reachability through
the neighbour relation. -/
theorem mem_closureFrom_iff_transGen {nbrs : String → List String} {U : List String}
    (hU : ∀ y x, x ∈ nbrs y → x ∈ U)
    {fuel : Nat} (hfuel : U.toFinset.card ≤ fuel) (root x : String) :
    x ∈ closureFrom nbrs fuel (nbrs root).dedup ↔
      Relation.TransGen (fun u v => u ∈ nbrs v) x root := by
  constructor
  · apply closureFrom_sound
    · intro z hz
      exact Relation.TransGen.single (List.mem_dedup.mp hz)
    · intro y hy x hx
      exact Relation.TransGen.head hx hy
  · intro h
    have hstartU : ∀ z ∈ (nbrs root).dedup, z ∈ U := fun z hz =>
      hU root z (List.mem_dedup.mp hz)
    have hclosed := closureFrom_closed hU hstartU hfuel
    induction h using Relation.TransGen.head_induction_on with
    | base hr =>
        exact closureFrom_mono (Nat.zero_le fuel) _ (List.mem_dedup.mpr hr)
    | ih hr _hTG ihm => exact hclosed _ ihm _ hr

theorem mem_nbrsPred {edges : List (String × String)} {x y : String} :
    y ∈ nbrsPred edges x ↔ (y, x) ∈ edges := by
  simp only [nbrsPred, List.mem_map, List.mem_filter]
  constructor
  · rintro ⟨⟨a, b⟩, ⟨hmem, hb⟩, ha⟩
    simp only [decide_eq_true_eq] at hb
    subst ha; subst hb; exact hmem
  · intro h
    exact ⟨(y, x), ⟨h, by simp⟩, rfl⟩

theorem mem_nbrsSucc {edges : List (String × String)} {x y : String} :
    y ∈ nbrsSucc edges x ↔ (x, y) ∈ edges := by
  simp only [nbrsSucc, List.mem_map, List.mem_filter]
  constructor
  · rintro ⟨⟨a, b⟩, ⟨hmem, ha⟩, hb⟩
    simp only [decide_eq_true_eq] at ha
    subst ha; subst hb; exact hmem
  · intro h
    exact ⟨(x, y), ⟨h, by simp⟩, rfl⟩

theorem mem_getPredecessors {edges : List (String × String)} {root x : String} :
    x ∈ getPredecessors edges root ↔
      Relation.TransGen (fun u v => (u, v) ∈ edges) x root := by
  have hU : ∀ y x2, x2 ∈ nbrsPred edges y → x2 ∈ edges.map (fun e => e.1) := by
    intro y x2 hx2
    exact List.mem_map.mpr ⟨(x2, y), mem_nbrsPred.mp hx2, rfl⟩
  have hfuel : (edges.map (fun e => e.1)).toFinset.card ≤ edges.length + 1 := by
    have h1 : (edges.map (fun e => e.1)).toFinset.card ≤
        (edges.map (fun e => e.1)).length :=
      List.toFinset_card_le (edges.map (fun e => e.1))
    simpa using Nat.le_succ_of_le h1
  rw [getPredecessors, mem_closureFrom_iff_transGen hU hfuel]
  constructor
  · exact Relation.TransGen.mono (fun u v h => mem_nbrsPred.mp h)
  · exact Relation.TransGen.mono (fun u v h => mem_nbrsPred.mpr h)

theorem nodup_getPredecessors {edges : List (String × String)} {root : String} :
    (getPredecessors edges root).Nodup :=
  nodup_closureFrom (List.nodup_dedup _) _

/-- Every transitive ancestor is the source of some edge. -/
theorem getPredecessors_subset_edge_sources {edges : List (String × String)}
    {root x : String} (hx : x ∈ getPredecessors edges root) :
    ∃ y, (x, y) ∈ edges := by
  have hU : ∀ y x2, x2 ∈ nbrsPred edges y → ∃ y2, (x2, y2) ∈ edges := by
    intro y x2 hx2
    exact ⟨y, mem_nbrsPred.mp hx2⟩
  exact closureFrom_sound
    (fun z hz => hU root z (List.mem_dedup.mp hz))
    (fun y _ x2 hx2 => hU y x2 hx2) _ x hx

/-!
### Association-list and record lemmas
-/
theorem lookup_updA_self {α : Type} (l : List (String × α)) (k : String)
    (f : α → α) (dflt : α) :
    List.lookup k (updA l k f dflt) = some (f ((List.lookup k l).getD dflt)) := by
  induction l with
  | nil => simp [updA, List.lookup]
  | cons p rest ih =>
      obtain ⟨k2, v⟩ := p
      by_cases h : k2 = k
      · subst h
        simp [updA, List.lookup]
      · have hne : (k == k2) = false := by
          exact beq_eq_false_iff_ne.mpr (fun hc => h hc.symm)
        simp [updA, h, List.lookup, hne, ih]

theorem lookup_updA_ne {α : Type} {l : List (String × α)} {k k2 : String}
    (f : α → α) (dflt : α) (h : k2 ≠ k) :
    List.lookup k2 (updA l k f dflt) = List.lookup k2 l := by
  induction l with
  | nil =>
      have hne : (k2 == k) = false := beq_eq_false_iff_ne.mpr h
      simp [updA, List.lookup, hne]
  | cons p rest ih =>
      obtain ⟨k3, v⟩ := p
      by_cases h3 : k3 = k
      · subst h3
        have hne : (k2 == k3) = false := beq_eq_false_iff_ne.mpr h
        simp [updA, List.lookup, hne]
      · simp [updA, h3, List.lookup, ih]

theorem getTaskCompletion_setTaskCompletion (doc : ProgressDoc) (x t : String)
    (f : TaskCompletionData → TaskCompletionData) :
    getTaskCompletion (setTaskCompletion doc x f) t =
      if t = x then f (getTaskCompletion doc x) else getTaskCompletion doc t := by
  by_cases h : t = x
  · subst h
    simp [getTaskCompletion, setTaskCompletion, lookup_updA_self]
  · simp [getTaskCompletion, setTaskCompletion, lookup_updA_ne _ _ h, h]

theorem getTaskObjective_setTaskObjective (doc : ProgressDoc) (x t : String)
    (f : TaskObjectiveData → TaskObjectiveData) :
    getTaskObjective (setTaskObjective doc x f) t =
      if t = x then f (getTaskObjective doc x) else getTaskObjective doc t := by
  by_cases h : t = x
  · subst h
    simp [getTaskObjective, setTaskObjective, lookup_updA_self]
  · simp [getTaskObjective, setTaskObjective, lookup_updA_ne _ _ h, h]

theorem primaryFields_setInvalid (doc : ProgressDoc) (x t : String) (v : Option Bool) :
    primaryFields (getTaskCompletion
        (setTaskCompletion doc x (fun c => { c with invalid := v })) t) =
      primaryFields (getTaskCompletion doc t) := by
  rw [getTaskCompletion_setTaskCompletion]
  by_cases h : t = x
  · subst h; simp [primaryFields]
  · simp [h]

/-- Dependency propagation only rewrites derived `invalid` flags: the
primary stored fields of every task survive it unchanged. -/
theorem primaryFields_updateTaskState (edges : List (String × String))
    (taskId state : String) (doc : ProgressDoc) (t : String) :
    primaryFields (getTaskCompletion (updateTaskState edges taskId state doc) t) =
      primaryFields (getTaskCompletion doc t) := by
  unfold updateTaskState
  generalize getSuccessors edges taskId = ds
  induction ds generalizing doc with
  | nil => rfl
  | cons d rest ih =>
      simp only [List.foldl_cons]
      rw [ih]
      split
      · exact primaryFields_setInvalid doc d t (some true)
      · split
        · exact primaryFields_setInvalid doc d t (some false)
        · rfl

theorem primaryFields_applyBatchPropagation (edges : List (String × String))
    (catalogOk : Bool) (items : List (String × String)) (doc : ProgressDoc)
    (t : String) :
    primaryFields (getTaskCompletion (applyBatchPropagation edges catalogOk items doc) t) =
      primaryFields (getTaskCompletion doc t) := by
  induction items generalizing doc with
  | nil => rfl
  | cons p rest ih =>
      simp only [applyBatchPropagation, List.foldl_cons] at *
      rw [ih]
      by_cases h : catalogOk
      · simp [h, primaryFields_updateTaskState]
      · simp [h]

/-!
### Hideout graph characterisation
-/
theorem mem_nodes_safeAddNode {g : Graph} {i x : String} :
    x ∈ (safeAddNode g i).nodes ↔ x ∈ g.nodes ∨ x = i := by
  by_cases h : i ∈ g.nodes
  · simp only [safeAddNode, if_pos h]
    constructor
    · exact Or.inl
    · rintro (hx | rfl)
      · exact hx
      · exact h
  · simp [safeAddNode, if_neg h]

theorem edges_safeAddNode (g : Graph) (i : String) :
    (safeAddNode g i).edges = g.edges := by
  unfold safeAddNode; split <;> rfl

theorem mem_edges_safeAddEdge {g : Graph} {a b : String} {e : String × String} :
    e ∈ (safeAddEdge g a b).edges ↔ e ∈ g.edges ∨ e = (a, b) := by
  by_cases h : (a, b) ∈ g.edges
  · simp only [safeAddEdge, if_pos h]
    constructor
    · exact Or.inl
    · rintro (hx | rfl)
      · exact hx
      · exact h
  · simp [safeAddEdge, if_neg h]

theorem nodes_safeAddEdge (g : Graph) (a b : String) :
    (safeAddEdge g a b).nodes = g.nodes := by
  unfold safeAddEdge; split <;> rfl

/-- Folding a step whose membership effect is a disjunction accumulates
the disjuncts over the list. -/
theorem foldl_mem_iff {β γ : Type} (step : γ → β → γ) (P : γ → Prop) (A : β → Prop)
    (h : ∀ g x, P (step g x) ↔ (P g ∨ A x)) :
    ∀ (xs : List β) (g : γ), P (xs.foldl step g) ↔ (P g ∨ ∃ x ∈ xs, A x) := by
  intro xs
  induction xs with
  | nil => intro g; simp
  | cons x rest ih =>
      intro g
      simp only [List.foldl_cons]
      rw [ih (step g x), h g x, List.exists_mem_cons_iff]
      tauto

theorem mem_edges_addRequirement {stations : List HideoutStation} {lid : String}
    {g : Graph} {r : StationLevelRequirement} {e : String × String} :
    e ∈ (addRequirement stations lid g r).edges ↔
      e ∈ g.edges ∨ ∃ a, resolveRequirement stations r = some a ∧ e = (a, lid) := by
  unfold addRequirement
  cases hres : resolveRequirement stations r with
  | none => simp
  | some a =>
      rw [mem_edges_safeAddEdge, edges_safeAddNode]
      simp

theorem mem_nodes_addRequirement {stations : List HideoutStation} {lid : String}
    {g : Graph} {r : StationLevelRequirement} {x : String} :
    x ∈ (addRequirement stations lid g r).nodes ↔
      x ∈ g.nodes ∨ resolveRequirement stations r = some x := by
  unfold addRequirement
  cases hres : resolveRequirement stations r with
  | none => simp
  | some a =>
      rw [nodes_safeAddEdge, mem_nodes_safeAddNode]
      simp [eq_comm]

theorem mem_edges_addLevel {stations : List HideoutStation} {g : Graph}
    {l : HideoutLevel} {e : String × String} :
    e ∈ (addLevel stations g l).edges ↔
      e ∈ g.edges ∨ ∃ r ∈ l.stationLevelRequirements,
        ∃ a, resolveRequirement stations r = some a ∧ e = (a, l.id) := by
  unfold addLevel
  rw [foldl_mem_iff (addRequirement stations l.id) (fun g2 => e ∈ g2.edges)
    (fun r => ∃ a, resolveRequirement stations r = some a ∧ e = (a, l.id))
    (fun g2 r => mem_edges_addRequirement) l.stationLevelRequirements
    (safeAddNode g l.id), edges_safeAddNode]

theorem mem_nodes_addLevel {stations : List HideoutStation} {g : Graph}
    {l : HideoutLevel} {x : String} :
    x ∈ (addLevel stations g l).nodes ↔
      x ∈ g.nodes ∨ x = l.id ∨ ∃ r ∈ l.stationLevelRequirements,
        resolveRequirement stations r = some x := by
  unfold addLevel
  rw [foldl_mem_iff (addRequirement stations l.id) (fun g2 => x ∈ g2.nodes)
    (fun r => resolveRequirement stations r = some x)
    (fun g2 r => mem_nodes_addRequirement) l.stationLevelRequirements
    (safeAddNode g l.id), mem_nodes_safeAddNode]
  tauto

theorem mem_edges_addStation {stations : List HideoutStation} {g : Graph}
    {st : HideoutStation} {e : String × String} :
    e ∈ (addStation stations g st).edges ↔
      e ∈ g.edges ∨ ∃ l ∈ st.levels, ∃ r ∈ l.stationLevelRequirements,
        ∃ a, resolveRequirement stations r = some a ∧ e = (a, l.id) := by
  unfold addStation
  exact foldl_mem_iff (addLevel stations) (fun g2 => e ∈ g2.edges)
    (fun l => ∃ r ∈ l.stationLevelRequirements,
      ∃ a, resolveRequirement stations r = some a ∧ e = (a, l.id))
    (fun g2 l => mem_edges_addLevel) st.levels g

theorem mem_nodes_addStation {stations : List HideoutStation} {g : Graph}
    {st : HideoutStation} {x : String} :
    x ∈ (addStation stations g st).nodes ↔
      x ∈ g.nodes ∨ ∃ l ∈ st.levels, (x = l.id ∨
        ∃ r ∈ l.stationLevelRequirements, resolveRequirement stations r = some x) := by
  unfold addStation
  exact foldl_mem_iff (addLevel stations) (fun g2 => x ∈ g2.nodes)
    (fun l => x = l.id ∨
      ∃ r ∈ l.stationLevelRequirements, resolveRequirement stations r = some x)
    (fun g2 l => mem_nodes_addLevel) st.levels g

/-- Edge characterisation of the built hideout graph: an edge exists exactly
for each successfully resolved declared requirement, pointing from the
resolved required level to the dependent level. -/
theorem mem_edges_buildHideoutGraph {stations : List HideoutStation}
    {e : String × String} :
    e ∈ (buildHideoutGraph stations).edges ↔
      ∃ s ∈ stations, ∃ l ∈ s.levels, ∃ r ∈ l.stationLevelRequirements,
        ∃ a, resolveRequirement stations r = some a ∧ e = (a, l.id) := by
  unfold buildHideoutGraph
  rw [foldl_mem_iff (addStation stations) (fun g2 => e ∈ g2.edges)
    (fun st => ∃ l ∈ st.levels, ∃ r ∈ l.stationLevelRequirements,
      ∃ a, resolveRequirement stations r = some a ∧ e = (a, l.id))
    (fun g2 st => mem_edges_addStation) stations {}]
  simp

/-- Node characterisation of the built hideout graph. -/
theorem mem_nodes_buildHideoutGraph {stations : List HideoutStation} {x : String} :
    x ∈ (buildHideoutGraph stations).nodes ↔
      ∃ s ∈ stations, ∃ l ∈ s.levels, (x = l.id ∨
        ∃ r ∈ l.stationLevelRequirements, resolveRequirement stations r = some x) := by
  unfold buildHideoutGraph
  rw [foldl_mem_iff (addStation stations) (fun g2 => x ∈ g2.nodes)
    (fun st => ∃ l ∈ st.levels, (x = l.id ∨
      ∃ r ∈ l.stationLevelRequirements, resolveRequirement stations r = some x))
    (fun g2 st => mem_nodes_addStation) stations {}]
  simp

/-- A successfully resolved requirement always names the id of some level of
some station of the catalog, matched on its declared level number. -/
theorem resolveRequirement_is_level_id {stations : List HideoutStation}
    {r : StationLevelRequirement} {a : String}
    (h : resolveRequirement stations r = some a) :
    ∃ s ∈ stations, ∃ l ∈ s.levels, l.id = a ∧ l.level = r.level := by
  unfold resolveRequirement at h
  split at h
  · exact absurd h (by simp)
  next sid =>
    split at h
    · exact absurd h (by simp)
    next hempty =>
      split at h
      · exact absurd h (by simp)
      next rs hfind =>
        split at h
        · exact absurd h (by simp)
        next rl hlvl =>
          split at h
          · exact absurd h (by simp)
          next hrl =>
            have ha : rl.id = a := by simpa using h
            have hrs : rs ∈ stations := List.mem_of_find?_eq_some hfind
            have hrlmem : rl ∈ rs.levels := List.mem_of_find?_eq_some hlvl
            have hlevel : rl.level = r.level := by
              have := List.find?_some hlvl
              simpa using this
            exact ⟨rs, hrs, rl, hrlmem, ha, hlevel⟩

/-!
### Modules and construction-time aggregation
-/
theorem find?_map_pred {α β : Type} (f : α → β) (p : β → Bool) (q : α → Bool)
    (hpq : ∀ a, p (f a) = q a) :
    ∀ l : List α, (l.map f).find? p = (l.find? q).map f := by
  intro l
  induction l with
  | nil => rfl
  | cons a rest ih =>
      simp only [List.map_cons, List.find?]
      rw [hpq a]
      cases hq : q a
      · simpa using ih
      · simp

theorem createHideoutModules_eq (stations : List HideoutStation) (g : Graph) :
    createHideoutModules stations g = (stationLevels stations).map (mkModule g) := by
  simp only [createHideoutModules, stationLevels, List.map_flatMap, List.map_map]
  rfl

theorem mem_stationLevels {stations : List HideoutStation}
    {p : HideoutStation × HideoutLevel} :
    p ∈ stationLevels stations ↔ p.1 ∈ stations ∧ p.2 ∈ p.1.levels := by
  obtain ⟨s, l⟩ := p
  simp only [stationLevels, List.mem_flatMap, List.mem_map]
  constructor
  · rintro ⟨s2, hs2, l2, hl2, heq⟩
    obtain ⟨h1, h2⟩ := Prod.mk.injEq .. ▸ heq
    cases heq
    exact ⟨hs2, hl2⟩
  · rintro ⟨hs, hl⟩
    exact ⟨s, hs, l, hl, rfl⟩

theorem getModuleById_createHideoutModules (stations : List HideoutStation)
    (g : Graph) (mid : String) :
    getModuleById (createHideoutModules stations g) mid =
      ((stationLevels stations).find? (fun p => p.2.id = mid)).map (mkModule g) := by
  rw [getModuleById, createHideoutModules_eq]
  exact find?_map_pred (mkModule g) (fun m => m.id = mid) (fun p => p.2.id = mid)
    (fun a => rfl) (stationLevels stations)

/-- Every transitive ancestor computed from the built graph resolves to a
module whose construction time is the catalog time of its level. -/
theorem ancestor_module_time {stations : List HideoutStation} {moduleId pid : String}
    (hpid : pid ∈ getPredecessors (buildHideoutGraph stations).edges moduleId) :
    ∃ p, getModuleById (createHideoutModules stations (buildHideoutGraph stations)) pid =
        some p ∧ p.constructionTime = levelTime stations pid := by
  obtain ⟨y, hedge⟩ := getPredecessors_subset_edge_sources hpid
  obtain ⟨s, hs, l, hl, r, hr, a, hres, heq⟩ := mem_edges_buildHideoutGraph.mp hedge
  have ha : a = pid := by
    have := congrArg Prod.fst heq
    simpa using this.symm
  subst ha
  obtain ⟨s2, hs2, l2, hl2, hid, _⟩ := resolveRequirement_is_level_id hres
  have hmem : (s2, l2) ∈ stationLevels stations := mem_stationLevels.mpr ⟨hs2, hl2⟩
  have hsome : ((stationLevels stations).find? (fun p => p.2.id = a)).isSome := by
    rw [List.find?_isSome]
    exact ⟨(s2, l2), hmem, by simpa using hid⟩
  obtain ⟨q, hq⟩ := Option.isSome_iff_exists.mp hsome
  refine ⟨mkModule (buildHideoutGraph stations) q, ?_, ?_⟩
  · rw [getModuleById_createHideoutModules, hq]
    rfl
  · rw [levelTime, hq]
    rfl

theorem foldl_lookup_time (modules : List HideoutModule) (f : String → Nat)
    (l : List String) (init : Nat)
    (h : ∀ pid ∈ l, ∃ p, getModuleById modules pid = some p ∧
      p.constructionTime = f pid) :
    l.foldl
      (fun total pid =>
        match getModuleById modules pid with
        | some p => total + p.constructionTime
        | none => total) init = init + (l.map f).sum := by
  induction l generalizing init with
  | nil => simp
  | cons pid rest ih =>
      obtain ⟨p, hp, hf⟩ := h pid (List.mem_cons_self pid rest)
      simp only [List.foldl_cons, hp]
      rw [ih (init + p.constructionTime) (fun q hq => h q (List.mem_cons_of_mem _ hq))]
      simp only [List.map_cons, List.sum_cons]
      omega

/-!
### Handler-level helper lemmas
-/
/-- A validated single-task update always answers 200 with the primary write
followed by best-effort propagation. -/
theorem updateSingleTask_valid_eq (edges : List (String × String)) (catalogOk : Bool)
    (ownerId : Option String) (perms : List String) (taskId state : String)
    (now : Nat) (doc : ProgressDoc)
    (hown : jsTruthyOptStr ownerId = true) (hperm : perms.contains "WP" = true)
    (htask : taskId ≠ "") (hstate : isValidTaskStatus state = true) :
    updateSingleTask edges catalogOk ownerId perms taskId state now doc =
      (.ok 200,
        if catalogOk then
          updateTaskState edges taskId state (applySingleTaskWrite taskId state now doc)
        else applySingleTaskWrite taskId state now doc) := by
  have hmem : "WP" ∈ perms := by simpa using hperm
  simp [updateSingleTask, hown, hmem, htask, hstate]

theorem primaryFields_optional_propagation (edges : List (String × String))
    (catalogOk : Bool) (taskId state : String) (d : ProgressDoc) (t : String) :
    primaryFields (getTaskCompletion
        (if catalogOk then updateTaskState edges taskId state d else d) t) =
      primaryFields (getTaskCompletion d t) := by
  cases catalogOk
  · simp
  · simp [primaryFields_updateTaskState]

theorem primaryFields_applySingleTaskWrite_uncompleted (taskId : String) (now : Nat)
    (doc : ProgressDoc) :
    primaryFields (getTaskCompletion (applySingleTaskWrite taskId "uncompleted" now doc)
        taskId) = (some false, some false, none) := by
  simp [applySingleTaskWrite, getTaskCompletion_setTaskCompletion, primaryFields]

theorem primaryFields_applySingleTaskWrite_completed (taskId : String) (now : Nat)
    (doc : ProgressDoc) :
    primaryFields (getTaskCompletion (applySingleTaskWrite taskId "completed" now doc)
        taskId) = (some true, some false, some now) := by
  simp [applySingleTaskWrite, getTaskCompletion_setTaskCompletion, primaryFields]

theorem primaryFields_applySingleTaskWrite_failed (taskId : String) (now : Nat)
    (doc : ProgressDoc) :
    primaryFields (getTaskCompletion (applySingleTaskWrite taskId "failed" now doc)
        taskId) = (some true, some true, some now) := by
  simp [applySingleTaskWrite, getTaskCompletion_setTaskCompletion, primaryFields]

theorem complete_of_primaryFields {c : TaskCompletionData} {a b : Option Bool}
    {t : Option Nat} (h : primaryFields c = (a, b, t)) : c.complete = a :=
  congrArg Prod.fst h

theorem failed_of_primaryFields {c : TaskCompletionData} {a b : Option Bool}
    {t : Option Nat} (h : primaryFields c = (a, b, t)) : c.failed = b :=
  congrArg (fun p => p.2.1) h

theorem timestamp_of_primaryFields {c : TaskCompletionData} {a b : Option Bool}
    {t : Option Nat} (h : primaryFields c = (a, b, t)) : c.timestamp = t :=
  congrArg (fun p => p.2.2) h

/-!
### Claim theorems
-/
/-- Claim C4: a single-task update to `uncompleted` stores
`complete = false`, `failed = false` and removes the `timestamp` field
entirely (it is absent, not a sentinel), for every prior stored state;
updates to `completed` or `failed` stamp the current time into `timestamp`. -/
theorem updateSingleTask_timestamp_lifecycle
    (edges : List (String × String)) (catalogOk : Bool) (ownerId : Option String)
    (perms : List String) (taskId : String) (now : Nat) (doc : ProgressDoc)
    (hown : jsTruthyOptStr ownerId = true) (hperm : perms.contains "WP" = true)
    (htask : taskId ≠ "") :
    ((updateSingleTask edges catalogOk ownerId perms taskId "uncompleted" now doc).1 =
        .ok 200 ∧
      (getTaskCompletion
        (updateSingleTask edges catalogOk ownerId perms taskId "uncompleted" now doc).2
        taskId).complete = some false ∧
      (getTaskCompletion
        (updateSingleTask edges catalogOk ownerId perms taskId "uncompleted" now doc).2
        taskId).failed = some false ∧
      (getTaskCompletion
        (updateSingleTask edges catalogOk ownerId perms taskId "uncompleted" now doc).2
        taskId).timestamp = none) ∧
    (getTaskCompletion
      (updateSingleTask edges catalogOk ownerId perms taskId "completed" now doc).2
      taskId).timestamp = some now ∧
    (getTaskCompletion
      (updateSingleTask edges catalogOk ownerId perms taskId "failed" now doc).2
      taskId).timestamp = some now := by
  have hu := updateSingleTask_valid_eq edges catalogOk ownerId perms taskId
    "uncompleted" now doc hown hperm htask (by decide)
  have hc := updateSingleTask_valid_eq edges catalogOk ownerId perms taskId
    "completed" now doc hown hperm htask (by decide)
  have hf := updateSingleTask_valid_eq edges catalogOk ownerId perms taskId
    "failed" now doc hown hperm htask (by decide)
  refine ⟨⟨by rw [hu], ?_, ?_, ?_⟩, ?_, ?_⟩
  · rw [hu]
    exact complete_of_primaryFields
      ((primaryFields_optional_propagation edges catalogOk taskId "uncompleted"
        (applySingleTaskWrite taskId "uncompleted" now doc) taskId).trans
        (primaryFields_applySingleTaskWrite_uncompleted taskId now doc))
  · rw [hu]
    exact failed_of_primaryFields
      ((primaryFields_optional_propagation edges catalogOk taskId "uncompleted"
        (applySingleTaskWrite taskId "uncompleted" now doc) taskId).trans
        (primaryFields_applySingleTaskWrite_uncompleted taskId now doc))
  · rw [hu]
    exact timestamp_of_primaryFields
      ((primaryFields_optional_propagation edges catalogOk taskId "uncompleted"
        (applySingleTaskWrite taskId "uncompleted" now doc) taskId).trans
        (primaryFields_applySingleTaskWrite_uncompleted taskId now doc))
  · rw [hc]
    exact timestamp_of_primaryFields
      ((primaryFields_optional_propagation edges catalogOk taskId "completed"
        (applySingleTaskWrite taskId "completed" now doc) taskId).trans
        (primaryFields_applySingleTaskWrite_completed taskId now doc))
  · rw [hf]
    exact timestamp_of_primaryFields
      ((primaryFields_optional_propagation edges catalogOk taskId "failed"
        (applySingleTaskWrite taskId "failed" now doc) taskId).trans
        (primaryFields_applySingleTaskWrite_failed taskId now doc))

/-- Witness for C4 at a concrete input: a task stored as failed with a
timestamp, set to `uncompleted`, ends with the timestamp field absent. -/
theorem updateSingleTask_timestamp_lifecycle_witness :
    (getTaskCompletion
      (updateSingleTask [] true (some "u") ["WP"] "t1" "uncompleted" 7
        { taskCompletions :=
            [("t1", { complete := some true, failed := some true, timestamp := some 3 })] }).2
      "t1").timestamp = none :=
  (updateSingleTask_timestamp_lifecycle [] true (some "u") ["WP"] "t1" 7
    { taskCompletions :=
        [("t1", { complete := some true, failed := some true, timestamp := some 3 })] }
    (by decide) (by decide) (by decide)).1.2.2.2

/-- Claim C6: once the primary write of a valid single-task update has been
applied, the request answers 200 even when the dependency-propagation step
(catalog load plus `updateTaskState`) throws (`catalogOk = false`): the
error is swallowed, the committed primary fields are not rolled back, and on
a throw nothing beyond the primary write happens. -/
theorem updateSingleTask_propagation_best_effort
    (edges : List (String × String)) (catalogOk : Bool) (ownerId : Option String)
    (perms : List String) (taskId state : String) (now : Nat) (doc : ProgressDoc)
    (hown : jsTruthyOptStr ownerId = true) (hperm : perms.contains "WP" = true)
    (htask : taskId ≠ "") (hstate : isValidTaskStatus state = true) :
    (updateSingleTask edges catalogOk ownerId perms taskId state now doc).1 = .ok 200 ∧
    primaryFields (getTaskCompletion
        (updateSingleTask edges catalogOk ownerId perms taskId state now doc).2 taskId) =
      primaryFields (getTaskCompletion (applySingleTaskWrite taskId state now doc) taskId) ∧
    (catalogOk = false →
      (updateSingleTask edges catalogOk ownerId perms taskId state now doc).2 =
        applySingleTaskWrite taskId state now doc) := by
  have hu := updateSingleTask_valid_eq edges catalogOk ownerId perms taskId state
    now doc hown hperm htask hstate
  refine ⟨by rw [hu], ?_, ?_⟩
  · rw [hu]
    exact primaryFields_optional_propagation edges catalogOk taskId state
      (applySingleTaskWrite taskId state now doc) taskId
  · intro hck
    rw [hu, hck]
    simp

/-- Witness for C6 at a concrete input: with a throwing propagation step
(`catalogOk = false`) the response is still 200. -/
theorem updateSingleTask_propagation_best_effort_witness :
    (updateSingleTask [("t1", "t2")] false (some "u") ["WP"] "t1" "completed" 7 {}).1 =
      .ok 200 :=
  (updateSingleTask_propagation_best_effort [("t1", "t2")] false (some "u") ["WP"]
    "t1" "completed" 7 {} (by decide) (by decide) (by decide) (by decide)).1

/-- Claim C8: an objective update carrying neither a state nor a count is
rejected as `EmptyUpdate` (HTTP 400) and the stored document is unchanged. -/
theorem updateTaskObjective_empty_update (ownerId : Option String)
    (perms : List String) (objectiveId : String) (now : Nat) (doc : ProgressDoc)
    (hown : jsTruthyOptStr ownerId = true) (hperm : perms.contains "WP" = true)
    (hobj : objectiveId ≠ "") :
    updateTaskObjective ownerId perms objectiveId none none now doc =
      (.err 400 .emptyUpdate, doc) := by
  have hmem : "WP" ∈ perms := by simpa using hperm
  have hnone : jsTruthyOptStr none = false := rfl
  simp [updateTaskObjective, hown, hmem, hobj, hnone]

/-- Witness for C8 at a concrete input. -/
theorem updateTaskObjective_empty_update_witness :
    updateTaskObjective (some "u") ["WP"] "obj1" none none 9
        { taskObjectives := [("obj1", { complete := some true })] } =
      (.err 400 .emptyUpdate,
        { taskObjectives := [("obj1", { complete := some true })] }) :=
  updateTaskObjective_empty_update (some "u") ["WP"] "obj1" 9
    { taskObjectives := [("obj1", { complete := some true })] }
    (by decide) (by decide) (by decide)

/-- Claim C9: `setPlayerLevel` rejects with `InvalidCount` and writes
nothing exactly when the path value parses to `NaN` or to an integer below
1; every value parsing to an integer of at least 1 succeeds with a merge
write that sets only the `level` field. -/
theorem setPlayerLevel_level_validation (ownerId : Option String)
    (perms : List String) (levelValue : String) (doc : ProgressDoc)
    (hown : jsTruthyOptStr ownerId = true) (hperm : perms.contains "WP" = true) :
    ((parseIntJS levelValue = none ∨ ∃ v, parseIntJS levelValue = some v ∧ v < 1) ↔
      setPlayerLevel ownerId perms levelValue doc = (.err 400 .invalidCount, doc)) ∧
    (∀ v, parseIntJS levelValue = some v → 1 ≤ v →
      setPlayerLevel ownerId perms levelValue doc =
        (.ok 200, { doc with level := some v })) := by
  have hmem : "WP" ∈ perms := by simpa using hperm
  constructor
  · cases hp : parseIntJS levelValue with
    | none => simp [setPlayerLevel, hown, hmem, hp]
    | some v =>
        by_cases hv : v < 1
        · simp [setPlayerLevel, hown, hmem, hp, hv]
        · simp only [setPlayerLevel, hown, hmem, hp]
          simp [hv, hown, hmem]
  · intro v hv h1
    have hv1 : ¬ v < 1 := by omega
    simp [setPlayerLevel, hown, hmem, hv, hv1]

/-- Witness for C9 at concrete inputs: `45` succeeds and merges only the
level field; `0` and a non-numeric segment are rejected without a write. -/
theorem setPlayerLevel_level_validation_witness :
    setPlayerLevel (some "u") ["WP"] "45" { displayName := some "x" } =
        (.ok 200, { displayName := some "x", level := some 45 }) ∧
    setPlayerLevel (some "u") ["WP"] "0" { displayName := some "x" } =
        (.err 400 .invalidCount, { displayName := some "x" }) ∧
    setPlayerLevel (some "u") ["WP"] "abc" { displayName := some "x" } =
        (.err 400 .invalidCount, { displayName := some "x" }) := by
  refine ⟨?_, ?_, ?_⟩
  · exact (setPlayerLevel_level_validation (some "u") ["WP"] "45"
      { displayName := some "x" } (by decide) (by decide)).2 45 (by decide) (by decide)
  · exact ((setPlayerLevel_level_validation (some "u") ["WP"] "0"
      { displayName := some "x" } (by decide) (by decide)).1).mp
      (Or.inr ⟨0, by decide, by decide⟩)
  · exact ((setPlayerLevel_level_validation (some "u") ["WP"] "abc"
      { displayName := some "x" } (by decide) (by decide)).1).mp (Or.inl (by decide))

/-- Claim C10 (implicit): in the stored legacy format a task set to `failed`
is written with `complete = true` as well as `failed = true`, in both the
single-task and the batch write paths, so every failed task also reads as
complete; the `completed` and `failed` writes differ only in the `failed`
flag. -/
theorem failed_write_reads_as_complete (taskId : String) (now : Nat)
    (doc : ProgressDoc) :
    (getTaskCompletion (applySingleTaskWrite taskId "failed" now doc) taskId).complete =
        some true ∧
    (getTaskCompletion (applySingleTaskWrite taskId "failed" now doc) taskId).failed =
        some true ∧
    (getTaskCompletion (applyBatchTaskWrite taskId "failed" now doc) taskId).complete =
        some true ∧
    (getTaskCompletion (applyBatchTaskWrite taskId "failed" now doc) taskId).failed =
        some true ∧
    (getTaskCompletion (applySingleTaskWrite taskId "completed" now doc) taskId).failed =
        some false ∧
    { getTaskCompletion (applySingleTaskWrite taskId "completed" now doc) taskId with
        failed := some true } =
      getTaskCompletion (applySingleTaskWrite taskId "failed" now doc) taskId ∧
    (getTaskCompletion (applyBatchTaskWrite taskId "completed" now doc) taskId).failed =
        some false ∧
    { getTaskCompletion (applyBatchTaskWrite taskId "completed" now doc) taskId with
        failed := some true } =
      getTaskCompletion (applyBatchTaskWrite taskId "failed" now doc) taskId := by
  simp [applySingleTaskWrite, applyBatchTaskWrite, getTaskCompletion_setTaskCompletion]

/-- A batch containing some invalid status value is rejected with
`InvalidState` and the primary batch write is skipped: only the propagation
already started for the items validated before the break can run. -/
theorem updateMultipleTasks_invalid_eq (edges : List (String × String))
    (catalogOk : Bool) (ownerId : Option String) (perms : List String)
    (updates : List (String × String)) (now : Nat) (doc : ProgressDoc)
    (hown : jsTruthyOptStr ownerId = true) (hperm : perms.contains "WP" = true)
    (hinv : ∃ p ∈ updates, isValidTaskStatus p.2 = false) :
    updateMultipleTasks edges catalogOk ownerId perms updates now doc =
      (.err 400 .invalidState,
        applyBatchPropagation edges catalogOk
          (updates.takeWhile (fun p => isValidTaskStatus p.2)) doc) := by
  have hmem : "WP" ∈ perms := by simpa using hperm
  obtain ⟨p, hp, hpv⟩ := hinv
  have hne : updates.isEmpty = false := by
    cases updates
    · exact absurd hp (List.not_mem_nil p)
    · rfl
  have hall : updates.all (fun p => isValidTaskStatus p.2) = false := by
    rw [List.all_eq_false]
    exact ⟨p, hp, by simp [hpv]⟩
  simp [updateMultipleTasks, hown, hmem, hne, hall]

/-- Claim C1 (amended): a batch update containing an invalid status value is
rejected whole with `InvalidState` (HTTP 400) and the primary batch write is
skipped, so every task's `complete`, `failed` and `timestamp` fields are
unchanged; however, the dependency propagation already initiated for the
items validated before the invalid entry still runs and may rewrite derived
`invalid` flags. -/
theorem updateMultipleTasks_invalid_no_primary_write
    (edges : List (String × String)) (catalogOk : Bool) (ownerId : Option String)
    (perms : List String) (updates : List (String × String)) (now : Nat)
    (doc : ProgressDoc)
    (hown : jsTruthyOptStr ownerId = true) (hperm : perms.contains "WP" = true)
    (hinv : ∃ p ∈ updates, isValidTaskStatus p.2 = false) :
    (updateMultipleTasks edges catalogOk ownerId perms updates now doc).1 =
      .err 400 .invalidState ∧
    ∀ t, primaryFields (getTaskCompletion
        (updateMultipleTasks edges catalogOk ownerId perms updates now doc).2 t) =
      primaryFields (getTaskCompletion doc t) := by
  have heq := updateMultipleTasks_invalid_eq edges catalogOk ownerId perms updates
    now doc hown hperm hinv
  constructor
  · rw [heq]
  · intro t
    rw [heq]
    exact primaryFields_applyBatchPropagation edges catalogOk
      (updates.takeWhile (fun p => isValidTaskStatus p.2)) doc t

/-- Witness for the amended C1 at a concrete input. -/
theorem updateMultipleTasks_invalid_no_primary_write_witness :
    (updateMultipleTasks [("a", "b")] true (some "u") ["WP"]
        [("a", "completed"), ("b", "bogus")] 100
        { taskCompletions := [("a", { complete := some true, failed := some false }),
                              ("b", { invalid := some true })] }).1 =
      .err 400 .invalidState :=
  (updateMultipleTasks_invalid_no_primary_write [("a", "b")] true (some "u") ["WP"]
    [("a", "completed"), ("b", "bogus")] 100
    { taskCompletions := [("a", { complete := some true, failed := some false }),
                          ("b", { invalid := some true })] }
    (by decide) (by decide)
    ⟨("b", "bogus"), by decide, by decide⟩).1

/-- Counterexample to C1 as stated: for the batch `{a: completed, b: bogus}`
over the task graph `a → b`, the request is rejected with `InvalidState`,
yet the stored record of task `b` — a member of the batch — changes: the
propagation promise already started for the validated item `a` rewrites
`b`'s derived `invalid` flag before the rejection settles.  So it is not
true that no write of any kind is performed for the batch's tasks. -/
theorem updateMultipleTasks_rejected_batch_still_writes_cex :
    (updateMultipleTasks [("a", "b")] true (some "u") ["WP"]
        [("a", "completed"), ("b", "bogus")] 100
        { taskCompletions := [("a", { complete := some true, failed := some false }),
                              ("b", { invalid := some true })] }).1 =
      .err 400 .invalidState ∧
    getTaskCompletion
        (updateMultipleTasks [("a", "b")] true (some "u") ["WP"]
          [("a", "completed"), ("b", "bogus")] 100
          { taskCompletions := [("a", { complete := some true, failed := some false }),
                                ("b", { invalid := some true })] }).2 "b" ≠
      getTaskCompletion
        { taskCompletions := [("a", { complete := some true, failed := some false }),
                              ("b", { invalid := some true })] } "b" := by
  decide

/-- Claim C2 (amended): `migrateDataIfNeeded` is a no-op (no patch, no
write) on every state with a truthy `currentGameMode`, both mode buckets
present, and, whenever the legacy top-level `level` field is present, a
truthy (present and nonzero) `pvp`-scoped level. -/
theorem migrateDataIfNeeded_noop_on_migrated (loggedIn : Bool) (s : TarkovState)
    (h1 : jsTruthyOptStr s.currentGameMode = true)
    (h2 : s.pvp.isSome = true) (h3 : s.pve.isSome = true)
    (h4 : s.level.isSome = true → jsTruthyOptNat (s.pvp.bind ModeState.level) = true) :
    migrateDataIfNeeded loggedIn s =
      { state := s, patched := false, savedRemote := false } := by
  have hnm : needsMigration s = false := by
    obtain ⟨cg, opvp, opve, olvl⟩ := s
    cases opvp with
    | none => simp at h2
    | some pv =>
        cases opve with
        | none => simp at h3
        | some pe =>
            cases olvl with
            | none => simp [needsMigration, h1]
            | some lv =>
                have hx := h4 (by simp)
                simp only [needsMigration] at *
                simp_all
  simp [migrateDataIfNeeded, hnm]

/-- Witness for the amended C2 at a concrete input. -/
theorem migrateDataIfNeeded_noop_on_migrated_witness :
    migrateDataIfNeeded true
        { currentGameMode := some "pvp", pvp := some { level := some 12 },
          pve := some {}, level := none } =
      { state := { currentGameMode := some "pvp", pvp := some { level := some 12 },
                   pve := some {}, level := none },
        patched := false, savedRemote := false } :=
  migrateDataIfNeeded_noop_on_migrated true
    { currentGameMode := some "pvp", pvp := some { level := some 12 },
      pve := some {}, level := none }
    (by decide) (by decide) (by decide) (by decide)

/-- Counterexample to C2 as stated: a state that is in the dual-mode shape
as the claim words it — `currentGameMode` set, both mode buckets present,
and the legacy top-level `level` accompanied by a present `pvp`-scoped
`level` — on which `migrateDataIfNeeded` nevertheless applies a patch,
because the detection tests the `pvp` level for JavaScript truthiness and a
stored level of `0` is falsy. -/
theorem migrateDataIfNeeded_patches_migrated_cex :
    (({ currentGameMode := some "pvp", pvp := some { level := some 0 },
        pve := some {}, level := some 5 } : TarkovState).currentGameMode).isSome = true ∧
    (({ currentGameMode := some "pvp", pvp := some { level := some 0 },
        pve := some {}, level := some 5 } : TarkovState).pvp).isSome = true ∧
    (({ currentGameMode := some "pvp", pvp := some { level := some 0 },
        pve := some {}, level := some 5 } : TarkovState).pve).isSome = true ∧
    (({ currentGameMode := some "pvp", pvp := some { level := some 0 },
        pve := some {}, level := some 5 } : TarkovState).pvp.bind
        ModeState.level).isSome = true ∧
    (migrateDataIfNeeded true
        { currentGameMode := some "pvp", pvp := some { level := some 0 },
          pve := some {}, level := some 5 }).patched = true := by
  decide

/-- The successful `getTeamProgress` response in closed form. -/
theorem getTeamProgress_ok_eq (uid : String) (perms : List String)
    (systemDoc : Option SystemDoc) (userDoc : Option UserDoc)
    (teams : List (String × TeamDoc)) (progressStore : List (String × ProgressDoc))
    (huid : uid ≠ "") (hperm : perms.contains "TP" = true) :
    getTeamProgress (some uid) perms systemDoc userDoc teams progressStore true =
      ⟨200, none,
        (teamMemberIds uid systemDoc teams).filterMap
          (fun m => (List.lookup m progressStore).map (fun d => formatProgress d m)),
        (teamMemberIds uid systemDoc teams).filter
          (fun i => i != uid &&
            (List.lookup i ((userDoc.map UserDoc.teamHide).getD [])).getD false)⟩ := by
  have hmem : "TP" ∈ perms := by simpa using hperm
  simp [getTeamProgress, huid, hmem]

/-- Claim C5: hiding a teammate only affects visibility metadata.
`hiddenTeammates` is exactly the member ids other than the requester that
the requester's own `teamHide` map marks hidden; the requester is never in
it; the returned `data` array does not depend on the hide map at all, so a
hidden teammate's formatted progress still appears whenever their stored
record exists. -/
theorem getTeamProgress_hiding_metadata_only (uid : String) (perms : List String)
    (systemDoc : Option SystemDoc) (userDoc : Option UserDoc)
    (teams : List (String × TeamDoc)) (progressStore : List (String × ProgressDoc))
    (huid : uid ≠ "") (hperm : perms.contains "TP" = true) :
    (getTeamProgress (some uid) perms systemDoc userDoc teams progressStore
        true).hiddenTeammates =
      (teamMemberIds uid systemDoc teams).filter
        (fun i => i != uid &&
          (List.lookup i ((userDoc.map UserDoc.teamHide).getD [])).getD false) ∧
    uid ∉ (getTeamProgress (some uid) perms systemDoc userDoc teams progressStore
        true).hiddenTeammates ∧
    (∀ userDoc2 : Option UserDoc,
      (getTeamProgress (some uid) perms systemDoc userDoc2 teams progressStore
        true).data =
      (getTeamProgress (some uid) perms systemDoc userDoc teams progressStore
        true).data) ∧
    (∀ m ∈ teamMemberIds uid systemDoc teams, ∀ d,
      List.lookup m progressStore = some d →
      formatProgress d m ∈
        (getTeamProgress (some uid) perms systemDoc userDoc teams progressStore
          true).data) := by
  have heq := getTeamProgress_ok_eq uid perms systemDoc userDoc teams progressStore
    huid hperm
  refine ⟨by rw [heq], ?_, ?_, ?_⟩
  · rw [heq]
    intro hmem
    have := (List.mem_filter.mp hmem).2
    simp at this
  · intro userDoc2
    rw [heq, getTeamProgress_ok_eq uid perms systemDoc userDoc2 teams progressStore
      huid hperm]
  · intro m hm d hd
    rw [heq]
    exact List.mem_filterMap.mpr ⟨m, hm, by simp [hd]⟩

/-- Witness for C5 at a concrete input: actor A hides actor B; B's formatted
progress is still in `data` while B's id is in `hiddenTeammates`, which does
not contain A. -/
theorem getTeamProgress_hiding_metadata_only_witness :
    (getTeamProgress (some "A") ["TP"] (some { team := some "t1" })
        (some { teamHide := [("B", true)] }) [("t1", { members := ["A", "B"] })]
        [("A", {}), ("B", { level := some 3 })] true).hiddenTeammates = ["B"] ∧
    formatProgress { level := some 3 } "B" ∈
      (getTeamProgress (some "A") ["TP"] (some { team := some "t1" })
        (some { teamHide := [("B", true)] }) [("t1", { members := ["A", "B"] })]
        [("A", {}), ("B", { level := some 3 })] true).data := by
  have h := getTeamProgress_hiding_metadata_only "A" ["TP"] (some { team := some "t1" })
    (some { teamHide := [("B", true)] }) [("t1", { members := ["A", "B"] })]
    [("A", {}), ("B", { level := some 3 })] (by decide) (by decide)
  constructor
  · rw [h.1]
    decide
  · exact h.2.2.2 "B" (by decide) { level := some 3 } (by decide)

/-- Claim C7: the graph builder resolves each declared station-level
requirement by matching the referenced station's level on its declared level
number; an edge exists exactly for each successful resolution (so a missing
match skips only that edge while construction continues), and the dependent
level's node is always added regardless of resolution failures. -/
theorem buildHideoutGraph_requirement_resolution (stations : List HideoutStation) :
    (∀ s ∈ stations, ∀ l ∈ s.levels, l.id ∈ (buildHideoutGraph stations).nodes) ∧
    (∀ e : String × String, e ∈ (buildHideoutGraph stations).edges ↔
      ∃ s ∈ stations, ∃ l ∈ s.levels, ∃ r ∈ l.stationLevelRequirements,
        ∃ a, resolveRequirement stations r = some a ∧ e = (a, l.id)) ∧
    (∀ r a, resolveRequirement stations r = some a →
      ∃ s ∈ stations, ∃ l2 ∈ s.levels, l2.id = a ∧ l2.level = r.level) := by
  refine ⟨?_, ?_, ?_⟩
  · intro s hs l hl
    exact mem_nodes_buildHideoutGraph.mpr ⟨s, hs, l, hl, Or.inl rfl⟩
  · intro e
    exact mem_edges_buildHideoutGraph
  · intro r a h
    exact resolveRequirement_is_level_id h

/-- Witness for C7 at the demo catalog: the level with the unresolvable
requirement still gets its node, and the resolvable requirement yields its
edge. -/
theorem buildHideoutGraph_requirement_resolution_witness :
    "s2l1" ∈ (buildHideoutGraph demoHideoutStations).nodes ∧
    ("s1l2", "s2l1") ∈ (buildHideoutGraph demoHideoutStations).edges := by
  have h := buildHideoutGraph_requirement_resolution demoHideoutStations
  constructor
  · have h1 := h.1 demoS2 (by decide) demoS2Level (by decide)
    simpa [demoS2Level] using h1
  · exact (h.2.1 ("s1l2", "s2l1")).mpr
      ⟨demoS2, by decide, demoS2Level, by decide,
       { stationRefId := some "s1", level := 2 }, by decide, "s1l2", by decide, rfl⟩

/-- Claim C3: for the built hideout graph, `getTotalConstructionTime` of an
id with a module equals the module's own construction time plus the sum of
the construction times of its transitive ancestors — the levels reachable
through any chain of requirement edges — each counted exactly once (the
ancestor list is duplicate-free and summed as a set); an id with no module
yields 0. -/
theorem getTotalConstructionTime_correct (stations : List HideoutStation)
    (moduleId : String) :
    (getModuleById (createHideoutModules stations (buildHideoutGraph stations))
        moduleId = none →
      getTotalConstructionTime
        (createHideoutModules stations (buildHideoutGraph stations)) moduleId = 0) ∧
    (∀ m, getModuleById (createHideoutModules stations (buildHideoutGraph stations))
        moduleId = some m →
      getTotalConstructionTime
          (createHideoutModules stations (buildHideoutGraph stations)) moduleId =
        m.constructionTime +
          ∑ a ∈ (getPredecessors (buildHideoutGraph stations).edges moduleId).toFinset,
            levelTime stations a) ∧
    (∀ x, x ∈ (getPredecessors (buildHideoutGraph stations).edges moduleId).toFinset ↔
      Relation.TransGen (fun u v => (u, v) ∈ (buildHideoutGraph stations).edges) x
        moduleId) := by
  refine ⟨?_, ?_, ?_⟩
  · intro h
    simp [getTotalConstructionTime, h]
  · intro m hm
    have hm2 := hm
    rw [getModuleById_createHideoutModules] at hm2
    obtain ⟨q, hq, hmq⟩ := Option.map_eq_some'.mp hm2
    have hqid : q.2.id = moduleId := by simpa using List.find?_some hq
    have hpred : m.predecessors =
        getPredecessors (buildHideoutGraph stations).edges moduleId := by
      rw [← hmq]
      show getPredecessors (buildHideoutGraph stations).edges q.2.id = _
      rw [hqid]
    have hct := foldl_lookup_time
      (createHideoutModules stations (buildHideoutGraph stations)) (levelTime stations)
      (getPredecessors (buildHideoutGraph stations).edges moduleId) m.constructionTime
      (fun pid hpid => ancestor_module_time hpid)
    simp only [getTotalConstructionTime, hm]
    rw [hpred, hct, List.sum_toFinset (levelTime stations) nodup_getPredecessors]
  · intro x
    rw [List.mem_toFinset]
    exact mem_getPredecessors

/-- Witness for C3 at the demo catalog: the unknown id yields 0, and the
level depending on the `s1` chain sums its own time with both ancestors. -/
theorem getTotalConstructionTime_correct_witness :
    getTotalConstructionTime
        (createHideoutModules demoHideoutStations
          (buildHideoutGraph demoHideoutStations)) "nope" = 0 ∧
    getTotalConstructionTime
        (createHideoutModules demoHideoutStations
          (buildHideoutGraph demoHideoutStations)) "s2l1" = 35 := by
  constructor
  · exact (getTotalConstructionTime_correct demoHideoutStations "nope").1 (by decide)
  · have h := (getTotalConstructionTime_correct demoHideoutStations "s2l1").2.1
      { id := "s2l1", stationId := "s2", constructionTime := 5,
        predecessors := ["s1l2", "s1l1"] } (by decide)
    exact h.trans (by decide)

end TarkovTrackerProof

